import Mathlib

/-!
Verification of the pose-conversion core of `smplx2fbx.py` (SMPL-X pose
sequence → keyframed skeletal animation).

The embedding below translates the algorithmic core of the script:

* `Rodrigues` / `ToQuaternion` (axis-angle → rotation matrix → quaternion,
  including the `mathutils` matrix-to-quaternion procedure they call);
* the per-record body of `get_input_data` (hand-pose mirror fix `diag(1,1,-1)`,
  body conversion, translation pass-through);
* `process_pose` (root translation `Vector((t.x, t.y, 0)) - pelvis_position`,
  the 180°-about-X root-quaternion correction, per-joint keyframe loops);
* the `process_poses` driver loop (target-rate clamp, stride
  `int(fps_source/fps_target)`, stride walk over source indices, consecutive
  output frame numbers starting at 1, once-captured origin-centering offset,
  returned frame counter).

Scene construction, file I/O and export are external collaborators and are not
modelled; the keyframe side effects of `process_pose` are modelled as the list
of emitted records.

Numeric conventions: translations and rotations are embedded over an arbitrary
linear ordered field `α` (instantiated at `ℚ` for executable witnesses and at
`ℝ` for trigonometric facts).  The transcendental operations `cos`, `sin`,
`sqrt` used by the numerics are passed as an explicit `AnalyticOps` record so
that every definition stays computable; theorems about actual numeric values
instantiate them with `Real.cos`, `Real.sin`, `Real.sqrt`.
-/

namespace Smplx2Fbx

/-- A 3-component vector (numpy shape `(3,)` / `mathutils.Vector`). -/
structure V3 (α : Type) where
  x : α
  y : α
  z : α
  deriving DecidableEq, Repr

/-- A 3×3 matrix, entry `mIJ` at row `I`, column `J`. -/
structure M3 (α : Type) where
  m00 : α
  m01 : α
  m02 : α
  m10 : α
  m11 : α
  m12 : α
  m20 : α
  m21 : α
  m22 : α
  deriving DecidableEq, Repr

/-- A quaternion in `(w, x, y, z)` order, as used by `mathutils.Quaternion`. -/
structure Quat (α : Type) where
  w : α
  x : α
  y : α
  z : α
  deriving DecidableEq, Repr

/-- The analytic operations the script gets from numpy / libm (`np.cos`,
`np.sin`, the square root inside `np.linalg.norm`, …).  Passed explicitly so
that the embedded definitions remain computable; real-valued theorems
instantiate this with `⟨Real.cos, Real.sin, Real.sqrt⟩`. -/
structure AnalyticOps (α : Type) where
  cos : α → α
  sin : α → α
  sqrt : α → α

variable {α : Type} [LinearOrderedField α]

/-- Componentwise vector subtraction (`numpy` array subtraction /
`mathutils.Vector` subtraction). -/
def vsub (a b : V3 α) : V3 α := ⟨a.x - b.x, a.y - b.y, a.z - b.z⟩

/-! ## The `process_poses` driver loop (src/smplx2fbx.py lines 269–315)

The loop walks `source_index = 0, s, 2s, …` while `source_index < N`
(`N = poses.shape[0]`), emitting one keyframed output frame per visited index
with frame numbers `1, 2, 3, …`, capturing the origin-centering `offset` at
`source_index == 0`, and finally returning the frame counter.

Each emitted record is `(frame number, source index, translation handed to
process_pose)`, i.e. `(frame, source_index, trans[source_index] - offset)`.
The loop is embedded with an explicit iteration bound (`fuel`): with stride
`s ≥ 1` the source loop performs at most `N` iterations, so fuel `N` is never
exhausted in any configuration reachable from the script. -/
def posesLoop (trans : ℕ → V3 α) (N s : ℕ) (start_origin : Bool) :
    (fuel : ℕ) → (source_index : ℕ) → (frame : ℕ) → (offset : V3 α) →
      List (ℕ × ℕ × V3 α) × ℕ
  | 0, _, frame, _ => ([], frame)
  | fuel + 1, i, frame, offset =>
    if i < N then
      let offset := if start_origin && (i == 0) then ⟨(trans i).x, (trans i).y, 0⟩ else offset
      let rest := posesLoop trans N s start_origin fuel (i + s) (frame + 1) offset
      ((frame, i, vsub (trans i) offset) :: rest.1, rest.2)
    else ([], frame)

/-- The resampling/emission loop of `process_poses` started as in the source:
`source_index = 0`, `frame = 1`, `offset = np.array([0.0, 0.0, 0.0])`.
Returns the emitted records together with the final value of `frame`
(the value `process_poses` returns). -/
def processPosesCore (trans : ℕ → V3 α) (N s : ℕ) (start_origin : Bool) :
    List (ℕ × ℕ × V3 α) × ℕ :=
  posesLoop trans N s start_origin N 0 1 ⟨0, 0, 0⟩

/-- Target-rate clamp of `process_poses` (lines 269–270):
`if fps_target > fps_source: fps_target = fps_source`. -/
def clampTarget (fps_source fps_target : ℤ) : ℤ :=
  if fps_target > fps_source then fps_source else fps_target

/-- Stride computation of `process_poses` (line 281):
`sample_rate = int(fps_source/fps_target)` after the clamp.  Python's `int()`
of a true division truncates toward zero, which is `Int.tdiv`; a zero clamped
target rate is a `ZeroDivisionError`, modelled as `none`. -/
def sampleRate (fps_source fps_target : ℤ) : Option ℤ :=
  if clampTarget fps_source fps_target = 0 then none
  else some (Int.tdiv fps_source (clampTarget fps_source fps_target))

/-- The full `process_poses` pipeline on one sequence of `N` source samples
with translations `trans`: clamp the target rate, compute the stride, run the
emission loop.  `none` models the two ways the script fails to produce any
animation frames at this stage: a `ZeroDivisionError` computing the stride, or
a non-positive stride (with which the source `while` loop never advances past
valid indices and aborts without completing; no frame list is produced). -/
def process_poses (trans : ℕ → V3 α) (N : ℕ) (fps_source fps_target : ℤ)
    (start_origin : Bool) : Option (List (ℕ × ℕ × V3 α) × ℕ) :=
  match sampleRate fps_source fps_target with
  | none => none
  | some s =>
    if s ≤ 0 then none
    else some (processPosesCore trans N s.toNat start_origin)

/-! ## Root translation of `process_pose` (src/smplx2fbx.py line 194) -/

/-- The root (pelvis) bone location keyframed by `process_pose`:
`bones['pelvis'].location = Vector((trans[0], trans[1], 0)) - pelvis_position`.
`trans` here is the already offset-corrected translation handed over by
`process_poses`. -/
def pelvisLocation (trans pelvis_position : V3 α) : V3 α :=
  vsub ⟨trans.x, trans.y, 0⟩ pelvis_position

/-! ## Rotation Converter (src/smplx2fbx.py lines 107–125)

`Rodrigues` builds the rotation matrix of an axis-angle vector;
`ToQuaternion` converts it to a quaternion through
`mathutils.Matrix(...).to_quaternion()`, i.e. Blender's `mat3_to_quat`
(normalize the three basis rows, then the trace-based branch-selected
matrix-to-quaternion conversion, then quaternion normalization). -/

/-- `FLT_EPSILON = 2⁻²³`, the threshold of the positive-trace branch of
Blender's `mat3_normalized_to_quat`. -/
def fltEpsilon : α := 1 / 8388608

/-- `Rodrigues(rotvec)` (lines 107–114): `theta = np.linalg.norm(rotvec)`;
`r = rotvec/theta if theta > 0 else rotvec`; result
`cos θ · I + (1 − cos θ) · r rᵀ + sin θ · K(r)` with `K` the cross-product
matrix `[[0, -r2, r1], [r2, 0, -r0], [-r1, r0, 0]]`. -/
def Rodrigues (ops : AnalyticOps α) (rotvec : V3 α) : M3 α :=
  let theta := ops.sqrt (rotvec.x * rotvec.x + rotvec.y * rotvec.y + rotvec.z * rotvec.z)
  let r := if theta > 0 then
      (⟨rotvec.x / theta, rotvec.y / theta, rotvec.z / theta⟩ : V3 α)
    else rotvec
  let cost := ops.cos theta
  let sint := ops.sin theta
  { m00 := cost * 1 + (1 - cost) * (r.x * r.x) + sint * 0
    m01 := cost * 0 + (1 - cost) * (r.x * r.y) + sint * (-r.z)
    m02 := cost * 0 + (1 - cost) * (r.x * r.z) + sint * r.y
    m10 := cost * 0 + (1 - cost) * (r.y * r.x) + sint * r.z
    m11 := cost * 1 + (1 - cost) * (r.y * r.y) + sint * 0
    m12 := cost * 0 + (1 - cost) * (r.y * r.z) + sint * (-r.x)
    m20 := cost * 0 + (1 - cost) * (r.z * r.x) + sint * (-r.y)
    m21 := cost * 0 + (1 - cost) * (r.z * r.y) + sint * r.x
    m22 := cost * 1 + (1 - cost) * (r.z * r.z) + sint * 0 }

/-- Blender `normalize_v3` applied to one basis row of a matrix: divide by
the Euclidean length if positive, otherwise the zero vector. -/
def normalizeRow (ops : AnalyticOps α) (v : V3 α) : V3 α :=
  let n := ops.sqrt (v.x * v.x + v.y * v.y + v.z * v.z)
  if n > 0 then ⟨v.x / n, v.y / n, v.z / n⟩ else ⟨0, 0, 0⟩

/-- Blender `normalize_m3`: normalize each of the three basis vectors. -/
def normalizeM3 (ops : AnalyticOps α) (m : M3 α) : M3 α :=
  let r0 := normalizeRow ops ⟨m.m00, m.m01, m.m02⟩
  let r1 := normalizeRow ops ⟨m.m10, m.m11, m.m12⟩
  let r2 := normalizeRow ops ⟨m.m20, m.m21, m.m22⟩
  ⟨r0.x, r0.y, r0.z, r1.x, r1.y, r1.z, r2.x, r2.y, r2.z⟩

/-- Blender `normalize_qt`: divide by the quaternion norm when nonzero,
otherwise the unit quaternion. -/
def normalizeQt (ops : AnalyticOps α) (q : Quat α) : Quat α :=
  let len := ops.sqrt (q.w * q.w + q.x * q.x + q.y * q.y + q.z * q.z)
  if len ≠ 0 then ⟨q.w / len, q.x / len, q.y / len, q.z / len⟩ else ⟨1, 0, 0, 0⟩

/-- Blender `mat3_normalized_to_quat`: trace-based branch selection
(positive-trace main branch, otherwise the branch of the dominant diagonal
entry), followed by quaternion normalization. -/
def mat3NormalizedToQuat (ops : AnalyticOps α) (m : M3 α) : Quat α :=
  let q : Quat α :=
    if (1 + m.m00 + m.m11 + m.m22) / 4 > fltEpsilon then
      let s := ops.sqrt ((1 + m.m00 + m.m11 + m.m22) / 4)
      ⟨s, (m.m12 - m.m21) * (1 / (4 * s)), (m.m20 - m.m02) * (1 / (4 * s)),
        (m.m01 - m.m10) * (1 / (4 * s))⟩
    else if m.m00 > m.m11 ∧ m.m00 > m.m22 then
      let s := 2 * ops.sqrt (1 + m.m00 - m.m11 - m.m22)
      ⟨(m.m12 - m.m21) * (1 / s), s / 4, (m.m10 + m.m01) * (1 / s),
        (m.m20 + m.m02) * (1 / s)⟩
    else if m.m11 > m.m22 then
      let s := 2 * ops.sqrt (1 + m.m11 - m.m00 - m.m22)
      ⟨(m.m20 - m.m02) * (1 / s), (m.m10 + m.m01) * (1 / s), s / 4,
        (m.m21 + m.m12) * (1 / s)⟩
    else
      let s := 2 * ops.sqrt (1 + m.m22 - m.m00 - m.m11)
      ⟨(m.m01 - m.m10) * (1 / s), (m.m20 + m.m02) * (1 / s),
        (m.m21 + m.m12) * (1 / s), s / 4⟩
  normalizeQt ops q

/-- Blender `mat3_to_quat` (what `Matrix(...).to_quaternion()` calls):
normalize the matrix, then convert. -/
def mat3ToQuat (ops : AnalyticOps α) (m : M3 α) : Quat α :=
  mat3NormalizedToQuat ops (normalizeM3 ops m)

/-- `ToQuaternion` on a single rotation vector (shape `(3,)` path, lines
119–120): `Matrix(Rodrigues(rotvec)).to_quaternion()`. -/
def ToQuaternion (ops : AnalyticOps α) (rotvec : V3 α) : Quat α :=
  mat3ToQuat ops (Rodrigues ops rotvec)

/-- `ToQuaternion` on a batch of rotation vectors (shape `(N, 3)` path,
lines 121–125): each row converted independently, order preserved. -/
def ToQuaternionBatch (ops : AnalyticOps α) (rotvecs : List (V3 α)) :
    List (Quat α) :=
  rotvecs.map (ToQuaternion ops)

/-! ## Hamilton product and the root corrective quaternion -/

/-- `mathutils` quaternion multiplication `@` (Hamilton product, `(w,x,y,z)`
component order). -/
def qmul (a b : Quat α) : Quat α :=
  ⟨a.w * b.w - a.x * b.x - a.y * b.y - a.z * b.z,
   a.w * b.x + a.x * b.w + a.y * b.z - a.z * b.y,
   a.w * b.y - a.x * b.z + a.y * b.w + a.z * b.x,
   a.w * b.z + a.x * b.y - a.y * b.x + a.z * b.w⟩

/-- `math.radians(deg)`: degrees to radians; the value of π is passed
explicitly (instantiated with `Real.pi` in the theorems). -/
def radiansOf (piv deg : α) : α := deg * piv / 180

/-- `mathutils.Quaternion(axis, angle)` (Blender `axis_angle_to_quat`):
normalize the axis, then `(cos(angle/2), axis · sin(angle/2))`; a zero axis
yields the unit quaternion. -/
def axisAngleToQuat (ops : AnalyticOps α) (axis : V3 α) (angle : α) : Quat α :=
  let n := ops.sqrt (axis.x * axis.x + axis.y * axis.y + axis.z * axis.z)
  if n > 0 then
    let phi := angle / 2
    let si := ops.sin phi / n
    ⟨ops.cos phi, axis.x * si, axis.y * si, axis.z * si⟩
  else ⟨1, 0, 0, 0⟩

/-- `quat_x_180_cw = Quaternion((1.0, 0.0, 0.0), radians(-180))`
(line 208): the fixed corrective quaternion, a 180° rotation about the X
axis (the code's `-180°` and `+180°` about X are the same rotation; as unit
quaternions they are negatives of one another). -/
def quat_x_180_cw (ops : AnalyticOps α) (piv : α) : Quat α :=
  axisAngleToQuat ops ⟨1, 0, 0⟩ (radiansOf piv (-180))

/-! ## Keyframing of one pose (`process_pose`, lines 177–237)

The three `for index, mat_rot in enumerate(...)` loops.  Keyframing a bone's
`rotation_quaternion` is modelled as producing the list of keyframed
quaternions in loop order.  The `if index >= 22` / `if index >= 15`
`continue` guards are embedded as written; they are dead for the reshaped
`(22, 4)` / `(15, 4)` inputs. -/

/-- The body-joint loop (lines 199–217): joint `0` (the pelvis/root) is
keyframed as `quat_x_180_cw @ bone_rotation`, every other joint as its raw
assembled quaternion. -/
def keyframeBodyLoop (ops : AnalyticOps α) (piv : α) :
    ℕ → List (Quat α) → List (Quat α)
  | _, [] => []
  | index, q :: rest =>
    if 22 ≤ index then keyframeBodyLoop ops piv (index + 1) rest
    else
      (if index = 0 then qmul (quat_x_180_cw ops piv) q else q) ::
        keyframeBodyLoop ops piv (index + 1) rest

/-- The hand-joint loops (lines 219–234): every hand joint is keyframed with
its assembled quaternion unchanged. -/
def keyframeHandLoop : ℕ → List (Quat α) → List (Quat α)
  | _, [] => []
  | index, q :: rest =>
    if 15 ≤ index then keyframeHandLoop (index + 1) rest
    else q :: keyframeHandLoop (index + 1) rest

/-- The rotation keyframes of `process_pose` for one frame: body joints
(22 quaternions, root corrected), left hand, right hand (15 each,
uncorrected). -/
def process_pose (ops : AnalyticOps α) (piv : α)
    (pose lhandpose rhandpose : List (Quat α)) :
    List (Quat α) × List (Quat α) × List (Quat α) :=
  (keyframeBodyLoop ops piv 0 pose, keyframeHandLoop 0 lhandpose,
    keyframeHandLoop 0 rhandpose)

/-! ## Per-record decoding (`get_input_data`, lines 127–155) -/

/-- One source record as loaded from a file: raw axis-angle arrays and the
translation. -/
structure InputRecord (α : Type) where
  global_orient : V3 α
  body_pose : List (V3 α)
  left_hand_pose : List (V3 α)
  right_hand_pose : List (V3 α)
  transl : V3 α

/-- `fix_coor = [[1, 0, 0], [0, 1, 0], [0, 0, -1]]` (lines 134–136). -/
def fix_coor : M3 α := ⟨1, 0, 0, 0, 1, 0, 0, 0, -1⟩

/-- One row of `np.matmul(pose, fix_coor)` for a `(N, 3)` pose array: the
row vector times the matrix. -/
def rowMatMul (v : V3 α) (m : M3 α) : V3 α :=
  ⟨v.x * m.m00 + v.y * m.m10 + v.z * m.m20,
   v.x * m.m01 + v.y * m.m11 + v.z * m.m21,
   v.x * m.m02 + v.y * m.m12 + v.z * m.m22⟩

/-- The per-record body of `get_input_data`'s loop (lines 137–150), minus
file I/O: body quaternions from `[global_orient] ++ body_pose` unmodified,
hand quaternions from the hand poses multiplied by `fix_coor` (the same
matrix for both hands), translation passed through unchanged. -/
def get_input_data_record (ops : AnalyticOps α) (rec : InputRecord α) :
    List (Quat α) × List (Quat α) × List (Quat α) × V3 α :=
  (ToQuaternionBatch ops (rec.global_orient :: rec.body_pose),
   ToQuaternionBatch ops (rec.left_hand_pose.map (fun v => rowMatMul v fix_coor)),
   ToQuaternionBatch ops (rec.right_hand_pose.map (fun v => rowMatMul v fix_coor)),
   rec.transl)

/-! ## Python assert semantics and numpy reshape (for the shape claim)

The `assert` in `ToQuaternion` (lines 117–118) is written
`assert(cond, msg)`: in Python this asserts the truthiness of the
parenthesized 2-tuple `(cond, msg)`, and a non-empty tuple is always truthy,
so the statement can never raise. -/

/-- A fragment of the Python value model sufficient for the assert operand:
booleans, strings, tuples. -/
inductive PyVal where
  | bool (b : Bool)
  | str (s : String)
  | tuple (elems : List PyVal)

/-- Python truthiness: `False` is falsy, the empty string is falsy, the
empty tuple is falsy; a non-empty tuple is truthy regardless of contents. -/
def PyVal.truthy : PyVal → Bool
  | .bool b => b
  | .str s => !s.isEmpty
  | .tuple es => !es.isEmpty

/-- `assert v` raises `AssertionError` iff `v` is falsy. -/
def pyAssertRaises (v : PyVal) : Bool := !v.truthy

/-- The operand of the assert statement in `ToQuaternion` as written:
the 2-tuple `(cond, message)`. -/
def toQuaternionAssertArg (cond : Bool) (msg : String) : PyVal :=
  PyVal.tuple [PyVal.bool cond, PyVal.str msg]

/-- The condition the assert intends to check:
`rotvec.shape[-1] == 3 and len(rotvec.shape) <= 2`. -/
def rotvecShapeCond (shape : List ℕ) : Bool :=
  (shape.getLast? == some 3) && decide (shape.length ≤ 2)

/-- `rot.flatten()` of a quaternion array: quaternion components in row
order. -/
def flattenQuats (qs : List (Quat α)) : List α :=
  qs.foldr (fun q acc => q.w :: q.x :: q.y :: q.z :: acc) []

/-- numpy `reshape(rows, cols)` succeeds exactly when the element count is
`rows * cols` (`process_pose` line 179 starts with `pose.reshape(22, 4)`). -/
def reshapeOk (rows cols : ℕ) (flat : List α) : Bool :=
  flat.length == rows * cols

/-! ## Basic loop lemmas -/

theorem posesLoop_stop (trans : ℕ → V3 α) (N s : ℕ) (so : Bool) (fuel i f : ℕ)
    (off : V3 α) (h : ¬ i < N) :
    posesLoop trans N s so fuel i f off = ([], f) := by
  cases fuel with
  | zero => rfl
  | succ fuel => simp [posesLoop, h]

/-- The returned frame counter is the initial frame number plus the number of
emitted records (each iteration emits one record and increments `frame`). -/
theorem posesLoop_ret (trans : ℕ → V3 α) (N s : ℕ) (so : Bool) :
    ∀ (fuel i f : ℕ) (off : V3 α),
      (posesLoop trans N s so fuel i f off).2 =
        f + (posesLoop trans N s so fuel i f off).1.length := by
  intro fuel
  induction fuel with
  | zero => intro i f off; simp [posesLoop]
  | succ fuel ih =>
    intro i f off
    by_cases h : i < N
    · simp only [posesLoop, if_pos h]
      simp only [List.length_cons]
      rw [ih]
      omega
    · simp [posesLoop, h]

/-- With stride `s ≥ 1` and enough fuel, the number of records emitted from
source index `i < N` is `⌈(N - i) / s⌉ = (N - i + s - 1) / s`. -/
theorem posesLoop_length (trans : ℕ → V3 α) (N s : ℕ) (so : Bool) (hs : 0 < s) :
    ∀ (fuel i f : ℕ) (off : V3 α), i < N → N - i ≤ fuel →
      (posesLoop trans N s so fuel i f off).1.length = (N - i + s - 1) / s := by
  intro fuel
  induction fuel with
  | zero => intro i f off hi hfuel; omega
  | succ fuel ih =>
    intro i f off hi hfuel
    simp only [posesLoop, if_pos hi, List.length_cons]
    by_cases h2 : i + s < N
    · rw [ih (i + s) (f + 1) _ h2 (by omega)]
      have e1 : N - (i + s) + s - 1 = (N - i - 1) := by omega
      have e2 : N - i + s - 1 = (N - i - 1) + s := by omega
      rw [e1, e2, Nat.add_div_right _ hs]
    · rw [posesLoop_stop _ _ _ _ _ _ _ _ h2]
      have e2 : N - i + s - 1 = (N - i - 1) + s := by omega
      rw [e2, Nat.add_div_right _ hs, Nat.div_eq_of_lt (by omega)]
      rfl

/-- The emitted frame numbers are consecutive starting from the initial
`frame` value: `frame, frame + 1, frame + 2, …` with no gaps. -/
theorem posesLoop_frames (trans : ℕ → V3 α) (N s : ℕ) (so : Bool) :
    ∀ (fuel i f : ℕ) (off : V3 α),
      (posesLoop trans N s so fuel i f off).1.map (fun r => r.1) =
        List.range' f (posesLoop trans N s so fuel i f off).1.length := by
  intro fuel
  induction fuel with
  | zero => intro i f off; simp [posesLoop]
  | succ fuel ih =>
    intro i f off
    by_cases hi : i < N
    · simp only [posesLoop, if_pos hi, List.map_cons, List.length_cons, List.range'_succ]
      rw [ih]
    · simp [posesLoop, hi]

/-- The emitted source indices are `i, i + s, i + 2s, …`, one per record. -/
theorem posesLoop_indices (trans : ℕ → V3 α) (N s : ℕ) (so : Bool) :
    ∀ (fuel i f : ℕ) (off : V3 α),
      (posesLoop trans N s so fuel i f off).1.map (fun r => r.2.1) =
        (List.range (posesLoop trans N s so fuel i f off).1.length).map
          (fun k => i + k * s) := by
  intro fuel
  induction fuel with
  | zero => intro i f off; simp [posesLoop]
  | succ fuel ih =>
    intro i f off
    by_cases hi : i < N
    · simp only [posesLoop, if_pos hi, List.map_cons, List.length_cons,
        List.range_succ_eq_map, List.map_map]
      rw [ih]
      refine congrArg₂ _ (by omega) ?_
      exact List.map_congr_left fun a _ => by
        simp only [Function.comp_apply, Nat.succ_eq_add_one]
        ring
    · simp [posesLoop, hi]

/-- Characterization of the selected source indices: with stride `s ≥ 1` and
enough fuel, an index is emitted iff it is of the form `i + k * s` and `< N`. -/
theorem posesLoop_mem_indices (trans : ℕ → V3 α) (N s : ℕ) (so : Bool) (hs : 0 < s) :
    ∀ (fuel i f : ℕ) (off : V3 α), N - i ≤ fuel → ∀ j,
      (j ∈ (posesLoop trans N s so fuel i f off).1.map (fun r => r.2.1)) ↔
        ((∃ k, j = i + k * s) ∧ j < N) := by
  intro fuel
  induction fuel with
  | zero =>
    intro i f off hfuel j
    rw [posesLoop_stop _ _ _ _ _ _ _ _ (by omega)]
    simp only [List.map_nil, List.not_mem_nil, false_iff]
    rintro ⟨⟨k, rfl⟩, hj⟩
    omega
  | succ fuel ih =>
    intro i f off hfuel j
    by_cases hi : i < N
    · simp only [posesLoop, if_pos hi, List.map_cons, List.mem_cons]
      rw [ih (i + s) (f + 1) _ (by omega) j]
      constructor
      · rintro (rfl | ⟨⟨k, rfl⟩, hj⟩)
        · exact ⟨⟨0, by omega⟩, hi⟩
        · exact ⟨⟨k + 1, by ring⟩, hj⟩
      · rintro ⟨⟨k, rfl⟩, hj⟩
        cases k with
        | zero => exact Or.inl (by omega)
        | succ k => exact Or.inr ⟨⟨k, by ring⟩, hj⟩
    · rw [posesLoop_stop _ _ _ _ _ _ _ _ hi]
      simp only [List.map_nil, List.not_mem_nil, false_iff]
      rintro ⟨⟨k, rfl⟩, hj⟩
      omega

/-- With positive integer rates, the clamp computes `min` and the stride is
the integer floor `fps_source / min fps_target fps_source`. -/
theorem sampleRate_pos_rates (fs ft : ℕ) (hfs : 0 < fs) (hft : 0 < ft) :
    clampTarget (fs : ℤ) (ft : ℤ) = ((min ft fs : ℕ) : ℤ) ∧
      sampleRate (fs : ℤ) (ft : ℤ) = some ((fs / min ft fs : ℕ) : ℤ) := by
  have hm : 0 < min ft fs := lt_min hft hfs
  have hclamp : clampTarget (fs : ℤ) (ft : ℤ) = ((min ft fs : ℕ) : ℤ) := by
    unfold clampTarget
    rcases le_or_lt ft fs with hle | hlt
    · rw [if_neg (by exact_mod_cast not_lt.mpr hle), min_eq_left hle]
    · rw [if_pos (by exact_mod_cast hlt), min_eq_right (le_of_lt hlt)]
  refine ⟨hclamp, ?_⟩
  unfold sampleRate
  rw [hclamp, if_neg (by exact_mod_cast Nat.pos_iff_ne_zero.mp hm)]
  rw [Int.tdiv_eq_ediv (by positivity) (by positivity)]
  exact congrArg some (Int.natCast_div fs (min ft fs)).symm

/-! ### Claim C1 -/

/-- C1: for a pose sequence of length `N ≥ 1` and positive integer rates, the
resampler of `process_poses` uses the effective target rate
`min(fps_target, fps_source)`, stride `s = ⌊fps_source / effective rate⌋` with
`s ≥ 1`; it selects exactly the source indices `0, s, 2s, …` that are `< N`
(in order), emits one output record per selected index so that the output
count is `⌈N / s⌉ = (N + s - 1) / s` (pinned as the ceiling by the two
inequalities `N ≤ count · s` and `(count - 1) · s < N`), and assigns output
frame numbers consecutively `1, 2, 3, …` with no gaps. -/
theorem frame_resampler {α : Type} [LinearOrderedField α]
    (N fs ft : ℕ) (trans : ℕ → V3 α) (so : Bool)
    (hN : 1 ≤ N) (hfs : 0 < fs) (hft : 0 < ft) :
    clampTarget (fs : ℤ) (ft : ℤ) = ((min ft fs : ℕ) : ℤ) ∧
    sampleRate (fs : ℤ) (ft : ℤ) = some ((fs / min ft fs : ℕ) : ℤ) ∧
    1 ≤ fs / min ft fs ∧
    ∃ out ret, process_poses trans N (fs : ℤ) (ft : ℤ) so = some (out, ret) ∧
      out.length = (N + fs / min ft fs - 1) / (fs / min ft fs) ∧
      N ≤ out.length * (fs / min ft fs) ∧
      (out.length - 1) * (fs / min ft fs) < N ∧
      out.map (fun r => r.2.1) =
        (List.range out.length).map (fun k => k * (fs / min ft fs)) ∧
      (∀ j, j ∈ out.map (fun r => r.2.1) ↔
        (∃ k, j = k * (fs / min ft fs)) ∧ j < N) ∧
      out.map (fun r => r.1) = List.range' 1 out.length := by
  obtain ⟨hclamp, hsample⟩ := sampleRate_pos_rates fs ft hfs hft
  have hm : 0 < min ft fs := lt_min hft hfs
  set s := fs / min ft fs with hs_def
  have hs : 0 < s := (Nat.one_le_div_iff hm).mpr (min_le_right ft fs)
  refine ⟨hclamp, hsample, hs, (processPosesCore trans N s so).1,
    (processPosesCore trans N s so).2, ?_, ?_, ?_, ?_, ?_, ?_, ?_⟩
  · simp only [process_poses, hsample]
    rw [if_neg (by exact_mod_cast Nat.not_le.mpr hs)]
    simp
  · have := posesLoop_length trans N s so hs N 0 1 ⟨0, 0, 0⟩ (by omega) (by omega)
    simpa [processPosesCore] using this
  · have hlen : (processPosesCore trans N s so).1.length = (N + s - 1) / s := by
      have := posesLoop_length trans N s so hs N 0 1 ⟨0, 0, 0⟩ (by omega) (by omega)
      simpa [processPosesCore] using this
    rw [hlen]
    have hdm := Nat.div_add_mod (N + s - 1) s
    have hmod := Nat.mod_lt (N + s - 1) hs
    have hmul : ((N + s - 1) / s) * s = s * ((N + s - 1) / s) := Nat.mul_comm _ _
    omega
  · have hlen : (processPosesCore trans N s so).1.length = (N + s - 1) / s := by
      have := posesLoop_length trans N s so hs N 0 1 ⟨0, 0, 0⟩ (by omega) (by omega)
      simpa [processPosesCore] using this
    rw [hlen]
    have hub : ((N + s - 1) / s) * s ≤ N + s - 1 :=
      (Nat.le_div_iff_mul_le hs).mp (Nat.le_refl _)
    have hsub : ((N + s - 1) / s - 1) * s = ((N + s - 1) / s) * s - 1 * s :=
      Nat.sub_mul _ _ _
    have hone : 1 ≤ (N + s - 1) / s := (Nat.one_le_div_iff hs).mpr (by omega)
    omega
  · have := posesLoop_indices trans N s so N 0 1 ⟨0, 0, 0⟩
    simp only [processPosesCore] at this ⊢
    rw [this]
    exact List.map_congr_left fun a _ => by omega
  · intro j
    have := posesLoop_mem_indices trans N s so hs N 0 1 ⟨0, 0, 0⟩ (by omega) j
    simp only [processPosesCore] at this ⊢
    rw [this]
    constructor
    · rintro ⟨⟨k, rfl⟩, hj⟩; exact ⟨⟨k, by omega⟩, hj⟩
    · rintro ⟨⟨k, rfl⟩, hj⟩; exact ⟨⟨k, by omega⟩, hj⟩
  · exact posesLoop_frames trans N s so N 0 1 ⟨0, 0, 0⟩

/-- Witness for C1 at the spec's own example: `fps_source = 30`,
`fps_target = 10`, `N = 100`; the stride is `3` and the output frame count
is `⌈100 / 3⌉ = 34`, with the returned counter `35`. -/
theorem frame_resampler_witness :
    (1 ≤ 100 ∧ 0 < 30 ∧ 0 < 10) ∧
    sampleRate ((30 : ℕ) : ℤ) ((10 : ℕ) : ℤ) = some (((30 / min 10 30 : ℕ)) : ℤ) ∧
    (process_poses (fun _ => (⟨0, 0, 0⟩ : V3 ℚ)) 100 ((30 : ℕ) : ℤ) ((10 : ℕ) : ℤ)
        false).map (fun p => p.1.length) = some 34 := by
  have h := frame_resampler 100 30 10 (fun _ => (⟨0, 0, 0⟩ : V3 ℚ)) false
    (by norm_num) (by norm_num) (by norm_num)
  obtain ⟨-, hsample, -, out, ret, hrun, hlen, -⟩ := h
  refine ⟨⟨by norm_num, by norm_num, by norm_num⟩, hsample, ?_⟩
  rw [hrun]
  have hmin : (10 : ℕ) ⊓ 30 = 10 := rfl
  rw [hmin] at hlen
  norm_num at hlen
  simp [hlen]

/-! ### Claim C10 -/

/-- C10: whenever `process_poses` completes on a non-empty sequence, the value
it returns (reported to the user as the number of poses processed) is the
number of emitted frames plus one: the frame counter starts at `1` and is
incremented once per emitted frame, so its final value is `1 + count`. -/
theorem process_poses_return_count (trans : ℕ → V3 α) (N : ℕ)
    (fsrc ftgt : ℤ) (so : Bool) (out : List (ℕ × ℕ × V3 α)) (ret : ℕ)
    (hN : 1 ≤ N) (h : process_poses trans N fsrc ftgt so = some (out, ret)) :
    ret = out.length + 1 := by
  cases hsr : sampleRate fsrc ftgt with
  | none => simp only [process_poses, hsr] at h; exact absurd h (by simp)
  | some s =>
    simp only [process_poses, hsr] at h
    by_cases hs : s ≤ 0
    · rw [if_pos hs] at h; exact absurd h (by simp)
    · rw [if_neg hs] at h
      have hcore : processPosesCore trans N s.toNat so = (out, ret) :=
        Option.some_injective _ h
    -- the final counter is the initial frame 1 plus the number of records
      have hr := posesLoop_ret trans N s.toNat so N 0 1 ⟨0, 0, 0⟩
      simp only [processPosesCore] at hcore
      rw [hcore] at hr
      simpa [Nat.add_comm] using hr

/-- Witness for C10: three source samples at matched 30/30 rates emit three
frames and `process_poses` returns `4`. -/
theorem process_poses_return_count_witness :
    1 ≤ 3 ∧
    process_poses (fun _ => (⟨0, 0, 0⟩ : V3 ℚ)) 3 30 30 false =
      some ([(1, 0, ⟨0, 0, 0⟩), (2, 1, ⟨0, 0, 0⟩), (3, 2, ⟨0, 0, 0⟩)], 4) ∧
    (4 : ℕ) =
      ([((1 : ℕ), (0 : ℕ), (⟨0, 0, 0⟩ : V3 ℚ)), (2, 1, ⟨0, 0, 0⟩),
        (3, 2, ⟨0, 0, 0⟩)]).length + 1 := by
  have hrun : process_poses (fun _ => (⟨0, 0, 0⟩ : V3 ℚ)) 3 30 30 false =
      some ([(1, 0, ⟨0, 0, 0⟩), (2, 1, ⟨0, 0, 0⟩), (3, 2, ⟨0, 0, 0⟩)], 4) := by
    have ht : Int.tdiv 30 30 = 1 := by decide
    norm_num [process_poses, sampleRate, clampTarget, ht, processPosesCore,
      posesLoop, vsub]
  exact ⟨by norm_num, hrun,
    process_poses_return_count (fun _ => (⟨0, 0, 0⟩ : V3 ℚ)) 3 30 30 false
      _ 4 (by norm_num) hrun⟩

/-! ### Claim C8 -/

/-- C8 counterexample: the claim says every configuration with a non-positive
source or target rate fails with a `ConfigurationError` before resampling and
produces no output.  The code performs no such validation: with
`fps_source = -30`, `fps_target = 30` the clamp sets the target to `-30`, the
stride is `int(-30 / -30) = 1`, and the pipeline happily emits one frame per
source sample — here two frames and return value `3`. -/
theorem config_validation_counterexample :
    process_poses (fun _ => (⟨0, 0, 0⟩ : V3 ℚ)) 2 (-30) 30 false =
      some ([(1, 0, ⟨0, 0, 0⟩), (2, 1, ⟨0, 0, 0⟩)], 3) := by
  have ht : Int.tdiv (-30) (-30) = 1 := by decide
  norm_num [process_poses, sampleRate, clampTarget, ht, processPosesCore,
    posesLoop, vsub]

/-- C8 amended: `process_poses` performs no positivity validation of the
rates; the only configuration handling is the clamp
`fps_target := fps_source` when `fps_target > fps_source`.  In particular for
every negative source rate (with any larger requested target rate) the clamp
yields the source rate itself, the stride evaluates to `1`, and the pipeline
emits one output frame per source sample instead of failing. -/
theorem no_rate_validation (fs ft : ℤ) (N : ℕ) (trans : ℕ → V3 α) (so : Bool)
    (h1 : fs < 0) (h2 : fs < ft) :
    clampTarget fs ft = fs ∧ sampleRate fs ft = some 1 ∧
    (process_poses trans N fs ft so).map (fun p => p.1.length) = some N := by
  have hclamp : clampTarget fs ft = fs := by unfold clampTarget; rw [if_pos h2]
  have hsample : sampleRate fs ft = some 1 := by
    unfold sampleRate
    rw [hclamp, if_neg (by omega), Int.tdiv_self (by omega)]
  refine ⟨hclamp, hsample, ?_⟩
  simp only [process_poses, hsample]
  rw [if_neg (by omega : ¬ (1 : ℤ) ≤ 0)]
  have h1nat : (1 : ℤ).toNat = 1 := rfl
  rw [h1nat]
  cases N with
  | zero =>
    rw [show processPosesCore trans 0 1 so = ([], 1) from
      posesLoop_stop _ _ _ _ _ _ _ _ (by omega)]
    simp
  | succ n =>
    have hlen := posesLoop_length trans (n + 1) 1 so one_pos (n + 1) 0 1
      ⟨0, 0, 0⟩ (by omega) (by omega)
    have hcore : (processPosesCore trans (n + 1) 1 so).1.length = n + 1 := by
      simpa [processPosesCore] using hlen
    simp [hcore]

/-- Witness for C8's amended statement at `fps_source = -30`,
`fps_target = 30`, two source samples: no failure, two emitted frames. -/
theorem no_rate_validation_witness :
    ((-30 : ℤ) < 0 ∧ (-30 : ℤ) < 30) ∧
    clampTarget (-30) 30 = -30 ∧ sampleRate (-30) 30 = some 1 ∧
    (process_poses (fun _ => (⟨0, 0, 0⟩ : V3 ℚ)) 2 (-30) 30 false).map
      (fun p => p.1.length) = some 2 := by
  have h := no_rate_validation (-30) 30 2 (fun _ => (⟨0, 0, 0⟩ : V3 ℚ)) false
    (by norm_num) (by norm_num)
  exact ⟨⟨by norm_num, by norm_num⟩, h.1, h.2.1, h.2.2⟩

/-! ### Claim C3 -/

/-- Past the first selected index (or with origin centering disabled) the
loop's `offset` never changes again: every emitted translation from such a
state is the raw source translation at its index minus the entry offset. -/
theorem posesLoop_translations (trans : ℕ → V3 α) (N s : ℕ) (so : Bool) :
    ∀ (fuel i f : ℕ) (off : V3 α), (so = false ∨ 1 ≤ i) →
      (posesLoop trans N s so fuel i f off).1.map (fun r => r.2.2) =
        (posesLoop trans N s so fuel i f off).1.map
          (fun r => vsub (trans r.2.1) off) := by
  intro fuel
  induction fuel with
  | zero => intro i f off hcond; simp [posesLoop]
  | succ fuel ih =>
    intro i f off hcond
    by_cases hi : i < N
    · have hne : (so && i == 0) = false := by
        rcases hcond with h | h
        · simp [h]
        · simp [Nat.pos_iff_ne_zero.mp h]
      simp only [posesLoop, if_pos hi, hne, Bool.false_eq_true, if_false,
        List.map_cons]
      rw [ih (i + s) (f + 1) off (hcond.imp id fun h => by omega)]
    · rw [posesLoop_stop _ _ _ _ _ _ _ _ hi]
      rfl

/-- C3: with origin centering enabled, the offset `(t₀.x, t₀.y, 0)` — `t₀`
the translation of the first selected source index, which is index `0` — is
captured once and subtracted from the translation of every emitted frame
including the first, so the first emitted frame's horizontal translation
(before bind-pose subtraction) is `(0, 0)` and every frame's translation is
its raw source translation minus `(t₀.x, t₀.y, 0)`; with centering disabled
the subtracted offset is `(0, 0, 0)` for all frames. -/
theorem origin_centering (trans : ℕ → V3 α) (N s : ℕ) (hs : 0 < s)
    (hN : 1 ≤ N) :
    ((processPosesCore trans N s true).1.map (fun r => r.2.2) =
      (processPosesCore trans N s true).1.map
        (fun r => vsub (trans r.2.1) ⟨(trans 0).x, (trans 0).y, 0⟩)) ∧
    ((processPosesCore trans N s false).1.map (fun r => r.2.2) =
      (processPosesCore trans N s false).1.map
        (fun r => vsub (trans r.2.1) ⟨0, 0, 0⟩)) ∧
    (∀ v, ((processPosesCore trans N s true).1.map
        (fun r => r.2.2)).head? = some v → v.x = 0 ∧ v.y = 0) := by
  obtain ⟨n, rfl⟩ : ∃ n, N = n + 1 := ⟨N - 1, by omega⟩
  have hstep : (processPosesCore trans (n + 1) s true).1 =
      (1, 0, vsub (trans 0) ⟨(trans 0).x, (trans 0).y, 0⟩) ::
        (posesLoop trans (n + 1) s true n s 2
          ⟨(trans 0).x, (trans 0).y, 0⟩).1 := by
    simp [processPosesCore, posesLoop]
  refine ⟨?_, ?_, ?_⟩
  · rw [hstep]
    simp only [List.map_cons]
    rw [posesLoop_translations trans (n + 1) s true n s 2 _ (Or.inr hs)]
  · exact posesLoop_translations trans (n + 1) s false (n + 1) 0 1 ⟨0, 0, 0⟩
      (Or.inl rfl)
  · intro v hv
    rw [hstep] at hv
    simp only [List.map_cons, List.head?_cons, Option.some_inj] at hv
    subst hv
    constructor <;> simp [vsub]

/-- Witness for C3 at the spec's own example over `ℚ`: first-frame
translation `(2, -1, 5)`, second raw translation `(2.5, -0.8, 5.2)`,
`center_on_origin = true`: the emitted translations are `(0, 0, 5)` and
`(0.5, 0.2, 5.2)` — horizontal part `(0,0)` then `(0.5, 0.2)`. -/
theorem origin_centering_witness :
    ((0 : ℕ) < 1 ∧ (1 : ℕ) ≤ 2) ∧
    (processPosesCore
        (fun k => if k = 0 then (⟨2, -1, 5⟩ : V3 ℚ) else ⟨5/2, -4/5, 26/5⟩)
        2 1 true).1.map (fun r => r.2.2) =
      [⟨0, 0, 5⟩, ⟨1/2, 1/5, 26/5⟩] := by
  have h := (origin_centering
    (fun k => if k = 0 then (⟨2, -1, 5⟩ : V3 ℚ) else ⟨5/2, -4/5, 26/5⟩)
    2 1 (by norm_num) (by norm_num)).1
  refine ⟨⟨by norm_num, by norm_num⟩, ?_⟩
  rw [h]
  norm_num [processPosesCore, posesLoop, vsub]

/-! ### Claim C4 -/

/-- C4: the vertical (third) component of the root-joint local translation
emitted by `process_pose` equals `0` minus the vertical component of the
bind-pose pelvis position, for every input translation value (so it is
constant across all frames of every sequence and independent of the source
translation's vertical component); and this holds at every record emitted by
the `process_poses` loop. -/
theorem vertical_root_lock (pelvis : V3 α) :
    (∀ t : V3 α, (pelvisLocation t pelvis).z = 0 - pelvis.z) ∧
    (∀ (trans : ℕ → V3 α) (N s : ℕ) (so : Bool) (r : ℕ × ℕ × V3 α),
      r ∈ (processPosesCore trans N s so).1 →
        (pelvisLocation r.2.2 pelvis).z = 0 - pelvis.z) := by
  refine ⟨fun t => rfl, fun trans N s so r _ => rfl⟩

/-- Witness for C4 at a concrete sequence: one source sample with translation
`(5, 6, 7)` over `ℚ`, pelvis bind position `(1, 2, 3)`; the single emitted
frame carries translation `(5, 6, 7)` and its keyframed root location has
vertical component `0 - 3`. -/
theorem vertical_root_lock_witness :
    ((1 : ℕ), (0 : ℕ), (⟨5, 6, 7⟩ : V3 ℚ)) ∈
        (processPosesCore (fun _ => (⟨5, 6, 7⟩ : V3 ℚ)) 1 1 false).1 ∧
      (pelvisLocation (⟨5, 6, 7⟩ : V3 ℚ) ⟨1, 2, 3⟩).z = 0 - (⟨(1 : ℚ), 2, 3⟩ : V3 ℚ).z :=
  ⟨by norm_num [processPosesCore, posesLoop, vsub],
    (vertical_root_lock ⟨1, 2, 3⟩).2 (fun _ => ⟨5, 6, 7⟩) 1 1 false
      (1, 0, ⟨5, 6, 7⟩) (by norm_num [processPosesCore, posesLoop, vsub])⟩

/-! ### Claim C2 -/

/-- `Rodrigues` at the zero rotation vector: `theta = 0`, the `theta > 0`
normalization is skipped, `cos 0 = 1` and `sin 0 = 0` reduce the formula to
the identity matrix. -/
theorem Rodrigues_zero :
    Rodrigues (⟨Real.cos, Real.sin, Real.sqrt⟩ : AnalyticOps ℝ) ⟨0, 0, 0⟩ =
      ⟨1, 0, 0, 0, 1, 0, 0, 0, 1⟩ := by
  unfold Rodrigues
  norm_num [Real.sqrt_zero, Real.cos_zero, Real.sin_zero]

/-- The `mathutils` matrix-to-quaternion conversion maps the identity matrix
to the identity quaternion `(1, 0, 0, 0)` (positive-trace branch). -/
theorem mat3ToQuat_id :
    mat3ToQuat (⟨Real.cos, Real.sin, Real.sqrt⟩ : AnalyticOps ℝ)
      ⟨1, 0, 0, 0, 1, 0, 0, 0, 1⟩ = ⟨1, 0, 0, 0⟩ := by
  unfold mat3ToQuat normalizeM3 normalizeRow mat3NormalizedToQuat normalizeQt fltEpsilon
  norm_num [Real.sqrt_zero, Real.sqrt_one]

/-- C2: the zero rotation vector converts to the identity quaternion
`(1, 0, 0, 0)` exactly, both on the single-vector path of `ToQuaternion` and
at every zero row of the batched path. -/
theorem rotation_converter_zero_identity :
    (ToQuaternion (⟨Real.cos, Real.sin, Real.sqrt⟩ : AnalyticOps ℝ) ⟨0, 0, 0⟩ =
      ⟨1, 0, 0, 0⟩) ∧
    ∀ (vs : List (V3 ℝ)) (i : ℕ), vs[i]? = some ⟨0, 0, 0⟩ →
      (ToQuaternionBatch (⟨Real.cos, Real.sin, Real.sqrt⟩ : AnalyticOps ℝ)
        vs)[i]? = some ⟨1, 0, 0, 0⟩ := by
  have h1 : ToQuaternion (⟨Real.cos, Real.sin, Real.sqrt⟩ : AnalyticOps ℝ)
      ⟨0, 0, 0⟩ = ⟨1, 0, 0, 0⟩ := by
    rw [ToQuaternion, Rodrigues_zero, mat3ToQuat_id]
  refine ⟨h1, fun vs i hv => ?_⟩
  rw [ToQuaternionBatch, List.getElem?_map, hv]
  simp [h1]

/-- Witness for C2's batched conjunct at the one-row batch `[(0, 0, 0)]`. -/
theorem rotation_converter_zero_identity_witness :
    ([(⟨0, 0, 0⟩ : V3 ℝ)])[0]? = some ⟨0, 0, 0⟩ ∧
    (ToQuaternionBatch (⟨Real.cos, Real.sin, Real.sqrt⟩ : AnalyticOps ℝ)
      [⟨0, 0, 0⟩])[0]? = some ⟨1, 0, 0, 0⟩ :=
  ⟨rfl, rotation_converter_zero_identity.2 [⟨0, 0, 0⟩] 0 rfl⟩

/-! ### Claim C5 -/

/-- The body keyframe loop on a list fitting inside the `index >= 22` guard:
entry `i` is the input quaternion at `i`, with the corrective pre-multiplied
exactly when the running index is `0`. -/
theorem keyframeBodyLoop_getElem (ops : AnalyticOps α) (piv : α) :
    ∀ (pose : List (Quat α)) (start : ℕ), start + pose.length ≤ 22 →
      ∀ i, (keyframeBodyLoop ops piv start pose)[i]? =
        (pose[i]?).map (fun q =>
          if start + i = 0 then qmul (quat_x_180_cw ops piv) q else q) := by
  intro pose
  induction pose with
  | nil => intro start h i; simp [keyframeBodyLoop]
  | cons q rest ih =>
    intro start h i
    rw [keyframeBodyLoop, if_neg (by simp at h; omega)]
    cases i with
    | zero => simp
    | succ i =>
      simp only [List.getElem?_cons_succ]
      rw [ih (start + 1) (by simp at h ⊢; omega) i]
      have h1 : ¬ start + 1 + i = 0 := by omega
      have h2 : ¬ start + (i + 1) = 0 := by omega
      simp [h1, h2]

/-- The hand keyframe loop on a list fitting inside the `index >= 15` guard
emits every quaternion unchanged. -/
theorem keyframeHandLoop_id :
    ∀ (l : List (Quat α)) (start : ℕ), start + l.length ≤ 15 →
      keyframeHandLoop start l = l := by
  intro l
  induction l with
  | nil => intro start h; rfl
  | cons q rest ih =>
    intro start h
    rw [keyframeHandLoop, if_neg (by simp at h; omega)]
    rw [ih (start + 1) (by simp at h ⊢; omega)]

/-- `quat_x_180_cw` evaluates to `(0, -1, 0, 0)`:
`cos(-π/2) = 0`, `sin(-π/2) = -1` on the unit X axis. -/
theorem quat_x_180_cw_value :
    quat_x_180_cw (⟨Real.cos, Real.sin, Real.sqrt⟩ : AnalyticOps ℝ) Real.pi =
      ⟨0, -1, 0, 0⟩ := by
  unfold quat_x_180_cw axisAngleToQuat radiansOf
  have harg : (-180 : ℝ) * Real.pi / 180 = -Real.pi := by ring
  rw [harg]
  norm_num [Real.sqrt_one, neg_div, Real.cos_pi_div_two, Real.sin_pi_div_two]

/-- C5: in every emitted frame, the root (pelvis) quaternion keyframed by
`process_pose` is the fixed corrective quaternion (the 180° X-axis rotation
`quat_x_180_cw`, concretely `(0, -1, 0, 0)`) Hamilton-pre-multiplied onto the
assembled root quaternion, and every other keyframed quaternion — the 21
remaining body joints and the 15 + 15 hand joints — is exactly its assembled
input with no corrective rotation. -/
theorem root_orientation_correction (pose lh rh : List (Quat ℝ))
    (hp : pose.length = 22) (hl : lh.length = 15) (hr : rh.length = 15) :
    (∀ i, ((process_pose (⟨Real.cos, Real.sin, Real.sqrt⟩ : AnalyticOps ℝ)
        Real.pi pose lh rh).1)[i]? =
      (pose[i]?).map (fun q =>
        if i = 0 then
          qmul (quat_x_180_cw (⟨Real.cos, Real.sin, Real.sqrt⟩ : AnalyticOps ℝ)
            Real.pi) q
        else q)) ∧
    (process_pose (⟨Real.cos, Real.sin, Real.sqrt⟩ : AnalyticOps ℝ)
        Real.pi pose lh rh).2.1 = lh ∧
    (process_pose (⟨Real.cos, Real.sin, Real.sqrt⟩ : AnalyticOps ℝ)
        Real.pi pose lh rh).2.2 = rh ∧
    quat_x_180_cw (⟨Real.cos, Real.sin, Real.sqrt⟩ : AnalyticOps ℝ) Real.pi =
      ⟨0, -1, 0, 0⟩ := by
  refine ⟨fun i => ?_, ?_, ?_, quat_x_180_cw_value⟩
  · have := keyframeBodyLoop_getElem
      (⟨Real.cos, Real.sin, Real.sqrt⟩ : AnalyticOps ℝ) Real.pi pose 0
      (by omega) i
    simpa [process_pose] using this
  · exact keyframeHandLoop_id lh 0 (by omega)
  · exact keyframeHandLoop_id rh 0 (by omega)

/-- Witness for C5 at concrete 22/15/15-element identity-quaternion inputs. -/
theorem root_orientation_correction_witness :
    (List.replicate 22 (⟨1, 0, 0, 0⟩ : Quat ℝ)).length = 22 ∧
    (List.replicate 15 (⟨1, 0, 0, 0⟩ : Quat ℝ)).length = 15 ∧
    (process_pose (⟨Real.cos, Real.sin, Real.sqrt⟩ : AnalyticOps ℝ) Real.pi
        (List.replicate 22 ⟨1, 0, 0, 0⟩) (List.replicate 15 ⟨1, 0, 0, 0⟩)
        (List.replicate 15 ⟨1, 0, 0, 0⟩)).2.1 =
      List.replicate 15 ⟨1, 0, 0, 0⟩ ∧
    quat_x_180_cw (⟨Real.cos, Real.sin, Real.sqrt⟩ : AnalyticOps ℝ) Real.pi =
      ⟨0, -1, 0, 0⟩ := by
  have h := root_orientation_correction (List.replicate 22 ⟨1, 0, 0, 0⟩)
    (List.replicate 15 ⟨1, 0, 0, 0⟩) (List.replicate 15 ⟨1, 0, 0, 0⟩)
    (by simp) (by simp) (by simp)
  exact ⟨by simp, by simp, h.2.1, h.2.2.2⟩

/-! ### Claim C9 -/

/-- C9: in per-record decoding, each hand's raw axis-angle vectors (left and
right alike, with the one shared matrix `fix_coor = diag(1, 1, -1)`) are
row-multiplied by `fix_coor` before quaternion conversion — which negates
exactly the third component — while the body rotation vectors are converted
unmodified and the translation passes through unchanged. -/
theorem hand_mirror_fix (ops : AnalyticOps α) (rec : InputRecord α) :
    (∀ v : V3 α, rowMatMul v fix_coor = ⟨v.x, v.y, -v.z⟩) ∧
    (get_input_data_record ops rec).1 =
      ToQuaternionBatch ops (rec.global_orient :: rec.body_pose) ∧
    (get_input_data_record ops rec).2.1 =
      (rec.left_hand_pose.map (fun v => (⟨v.x, v.y, -v.z⟩ : V3 α))).map
        (ToQuaternion ops) ∧
    (get_input_data_record ops rec).2.2.1 =
      (rec.right_hand_pose.map (fun v => (⟨v.x, v.y, -v.z⟩ : V3 α))).map
        (ToQuaternion ops) ∧
    (get_input_data_record ops rec).2.2.2 = rec.transl := by
  have hrow : ∀ v : V3 α, rowMatMul v fix_coor = ⟨v.x, v.y, -v.z⟩ := by
    intro v
    unfold rowMatMul fix_coor
    simp only [V3.mk.injEq]
    refine ⟨by ring, by ring, by ring⟩
  refine ⟨hrow, rfl, ?_, ?_, rfl⟩
  · show ToQuaternionBatch ops
      (rec.left_hand_pose.map (fun v => rowMatMul v fix_coor)) = _
    rw [ToQuaternionBatch]
    exact congrArg _ (List.map_congr_left fun v _ => hrow v)
  · show ToQuaternionBatch ops
      (rec.right_hand_pose.map (fun v => rowMatMul v fix_coor)) = _
    rw [ToQuaternionBatch]
    exact congrArg _ (List.map_congr_left fun v _ => hrow v)

/-! ### Claim C6 -/

/-- Auxiliary: a flattened quaternion list has `4 ·` (number of quaternions)
elements. -/
theorem flattenQuats_length (qs : List (Quat α)) :
    (flattenQuats qs).length = 4 * qs.length := by
  induction qs with
  | nil => rfl
  | cons q rest ih =>
    simp only [flattenQuats, List.foldr_cons, List.length_cons] at ih ⊢
    omega

/-- C6 (behavior at the failing input): for a source record with a 20-joint
`body_pose` (shape `(20, 3)` instead of `(21, 3)`), no `ShapeMismatchError`
is raised before per-joint processing.  The `assert` in `ToQuaternion` is a
parenthesized tuple `(cond, msg)` — always truthy, so it never raises even
when its condition is false — and its condition is `true` for `(20, 3)`
anyway since it only checks the trailing dimension; all 21 vectors (global
orientation plus 20 body joints) are quaternion-converted, i.e. per-joint
processing takes place; the mismatch only surfaces afterwards, when
`process_pose` tries `pose.reshape(22, 4)` on the flattened 84-element row,
which fails since `84 ≠ 88`. -/
theorem shape_mismatch_not_raised :
    pyAssertRaises (toQuaternionAssertArg (rotvecShapeCond [20, 3]) "bad shape") =
      false ∧
    pyAssertRaises (toQuaternionAssertArg false "bad shape") = false ∧
    rotvecShapeCond [20, 3] = true ∧
    (ToQuaternionBatch (⟨Real.cos, Real.sin, Real.sqrt⟩ : AnalyticOps ℝ)
      (List.replicate 21 ⟨0, 0, 0⟩)).length = 21 ∧
    reshapeOk 22 4 (flattenQuats (ToQuaternionBatch
      (⟨Real.cos, Real.sin, Real.sqrt⟩ : AnalyticOps ℝ)
      (List.replicate 21 ⟨0, 0, 0⟩))) = false := by
  refine ⟨rfl, rfl, rfl, by simp [ToQuaternionBatch], ?_⟩
  simp [reshapeOk, flattenQuats_length, ToQuaternionBatch]

end Smplx2Fbx
